import Mathlib

/-!
Verification of the scenario-identity and index-reconciliation logic of the
svmc72200-ukc1-telemetry-logger repository.

The embedding models Python strings as lists of characters (`Str`), directory
listings as lists of filenames (`Option (List Str)`, `none` meaning the
directory does not exist), CSV rows as association lists from column name to
value (mirroring the dicts produced by `csv.DictReader`), and the persistent
index file as a header plus a list of records (`Option CsvFile`, `none`
meaning the file is missing or empty).

Embedded functions (from `cli/interactive_capture.py` unless noted):
  `generate_scenario_id`, `list_metadata_only_scenarios`,
  `choose_or_generate_scenario_id`, `update_master_index` (including the
  file-size / record-count derivation), and the `main` check of
  `cli/backfill_index_links.py` (`backfill_index_links_main`).

Interactive prompting is modelled by passing the operator's answers as
explicit parameters (a `Bool` for yes/no reuse, a selection function for the
multi-candidate menu), and the GitHub-link strings that
`update_master_index` derives from module configuration are passed in as
parameters.  All functions are pure; the Python originals only read the file
system in the parts modelled here, and their writes are reflected in the
returned values.
-/

/-- Python strings, modelled as lists of characters. -/
abbrev Str := List Char

/-- Shorthand turning a Lean string literal into the `Str` model. -/
def str (s : String) : Str := s.toList

/-- Characters stripped by Python's `str.strip()` (the ASCII whitespace
class; further Unicode space characters are not modelled). -/
def pyIsSpace (c : Char) : Bool :=
  c == ' ' || c == '\t' || c == '\n' || c == '\r' || c == Char.ofNat 11 || c == Char.ofNat 12

/-- Python `str.strip()`: remove whitespace from both ends. -/
def pyStrip (s : Str) : Str :=
  ((s.dropWhile pyIsSpace).reverse.dropWhile pyIsSpace).reverse

/-- Fuel-driven worker for `replaceAll`.  The fuel makes the recursion
structural so that terms reduce definitionally; `replaceAll` supplies enough
fuel for the whole input. -/
def replaceAllAux (pat rep : Str) : Nat → Str → Str
  | 0, l => l
  | fuel + 1, l =>
    if pat ≠ [] ∧ pat.isPrefixOf l then
      rep ++ replaceAllAux pat rep fuel (l.drop pat.length)
    else
      match l with
      | [] => []
      | c :: cs => c :: replaceAllAux pat rep fuel cs

/-- Python `str.replace(pat, rep)` for a non-empty `pat`: replace every
non-overlapping occurrence, scanning left to right. -/
def replaceAll (pat rep l : Str) : Str := replaceAllAux pat rep l.length l

/-- The decimal digit character for `d < 10`. -/
def digitChar (d : Nat) : Char := Char.ofNat (48 + d)

/-- Fuel-driven worker for `natDigits` (structural recursion on the fuel). -/
def natDigitsAux : Nat → Nat → Str
  | 0, _ => []
  | fuel + 1, n =>
    if n < 10 then [digitChar n] else natDigitsAux fuel (n / 10) ++ [digitChar (n % 10)]

/-- Decimal representation of a natural number, as produced by Python's
`str(int)` for non-negative values. -/
def natDigits (n : Nat) : Str := natDigitsAux (n + 1) n

/-- Python's `f"{n:03d}"`: decimal digits left-padded with zeros to a
minimum (not maximum) width of three. -/
def pad3 (n : Nat) : Str :=
  List.replicate (3 - (natDigits n).length) '0' ++ natDigits n

/-- Numeric value of a string of decimal digits. -/
def strVal (s : Str) : Nat := s.foldl (fun a c => 10 * a + (c.toNat - 48)) 0

/-- Parse a non-empty all-digit string, else `none`. -/
def digitsVal? (s : Str) : Option Nat :=
  if s ≠ [] ∧ s.all Char.isDigit then some (strVal s) else none

/-- Python `int(str)` restricted to what the scanned filenames can contain:
optional surrounding whitespace, an optional sign, then decimal digits.
(Unicode digits are not modelled.) -/
def pyInt? (s : Str) : Option Int :=
  match pyStrip s with
  | '-' :: ds => (digitsVal? ds).map (fun n => -(n : Int))
  | '+' :: ds => (digitsVal? ds).map (fun n => (n : Int))
  | ds => (digitsVal? ds).map (fun n => (n : Int))

/-- The characters after the last `'_'` of `s` (all of `s` if there is
none): Python's `s.rsplit("_", 1)[-1]`. -/
def lastComponent (s : Str) : Str :=
  s.foldl (fun acc c => if c = '_' then [] else acc ++ [c]) []

/-- The sort key of `list_metadata_only_scenarios` (its inner
`suffix_num`): the integer value of the identifier's final `_`-separated
component, or `0` when it does not parse. -/
def suffixNum (sid : Str) : Int := (pyInt? (lastComponent sid)).getD 0

/-- Ordering by numeric suffix used when sorting pending identifiers. -/
def suffixLe (a b : Str) : Prop := suffixNum a ≤ suffixNum b

instance : DecidableRel suffixLe :=
  fun a b => inferInstanceAs (Decidable (suffixNum a ≤ suffixNum b))

instance : IsTotal Str suffixLe := ⟨fun a b => le_total (suffixNum a) (suffixNum b)⟩

instance : IsTrans Str suffixLe := ⟨fun _ _ _ hab hbc => le_trans hab hbc⟩

/-- `for_date.replace("-", "_")` from `generate_scenario_id` /
`list_metadata_only_scenarios`. -/
def dateToken (for_date : Str) : Str := replaceAll (str "-") (str "_") for_date

/-- The identifier prefix `f"SCN_{date_token}_"`. -/
def scnPrefix (tok : Str) : Str := str "SCN_" ++ tok ++ str "_"

/-- The regex match `^SCN_{date_token}_(\d{3})\.log$` of
`generate_scenario_id`, returning the integer value of the captured
three-digit group.  (Python's `\d` also admits non-ASCII decimal digits,
which `int()` parses the same way; only ASCII digits are modelled.) -/
def parseSuffix3 (tok : Str) (name : Str) : Option Nat :=
  let pref := scnPrefix tok
  if pref.isPrefixOf name then
    let rest := name.drop pref.length
    if rest.length = 7 ∧ (rest.take 3).all Char.isDigit ∧ rest.drop 3 = str ".log" then
      some (strVal (rest.take 3))
    else none
  else none

/-- `logs_dir.glob("*.log")`: names ending in `".log"`.  Unlike the `glob`
module, `pathlib.Path.glob` also matches hidden (dot-initial) names, so the
suffix is the only constraint. -/
def globLogs (names : List Str) : List Str :=
  names.filter (fun n => (str ".log").isSuffixOf n)

/-- The loop body of `generate_scenario_id`: a matching filename with
suffix `idx ≥ next_idx` bumps `next_idx` to `idx + 1`; anything else leaves
it unchanged (named here so the fold can be reasoned about). -/
def bumpStep (tok : Str) (acc : Nat) (name : Str) : Nat :=
  match parseSuffix3 tok name with
  | some idx => if acc ≤ idx then idx + 1 else acc
  | none => acc

/-- `generate_scenario_id(for_date, logs_dir)`: scan the `.log` files of the
date's archive directory for names matching the canonical pattern and return
`f"{prefix}{next_idx:03d}"` where `next_idx` starts at 1 and is bumped by
`bumpStep` for every scanned filename.  The directory is `none` when it does
not exist. -/
def generate_scenario_id (for_date : Str) (logs_dir : Option (List Str)) : Str :=
  let tok := dateToken for_date
  let pref := scnPrefix tok
  let next_idx :=
    match logs_dir with
    | none => 1
    | some names => (globLogs names).foldl (bumpStep tok) 1
  pref ++ pad3 next_idx

/-- `logs_dir.glob("*.metadata.json")`: names ending in `".metadata.json"`.
Unlike the `glob` module, `pathlib.Path.glob` also matches hidden
(dot-initial) names, so the suffix is the only constraint. -/
def globMeta (names : List Str) : List Str :=
  names.filter (fun n => (str ".metadata.json").isSuffixOf n)

/-- `metadata_path.stem.replace(".metadata", "")`: a glob result ends in
`".metadata.json"`, so its last dot sits at position `length - 5 > 0` and
`Path.stem` drops exactly the `".json"` suffix (this holds for hidden names
too); the `replace` then removes every occurrence of `".metadata"`. -/
def scenarioIdOf (name : Str) : Str :=
  replaceAll (str ".metadata") [] (name.take (name.length - 5))

/-- `list_metadata_only_scenarios(logs_dir, for_date)`: scenario identifiers
derived from metadata files for which no `.log` file exists and which match
the date's prefix, sorted ascending by numeric suffix.  Python's
`list.sort(key=suffix_num)` is a stable sort; `List.insertionSort` with the
key-based relation `suffixLe` is stable as well, hence produces the same
list. -/
def list_metadata_only_scenarios (logs_dir : Option (List Str)) (for_date : Str) : List Str :=
  match logs_dir with
  | none => []
  | some names =>
    let tok := dateToken for_date
    let pref := scnPrefix tok
    let candidates :=
      (globMeta names).filterMap (fun name =>
        let sid := scenarioIdOf name
        if !(names.contains (sid ++ str ".log")) && pref.isPrefixOf sid then some sid
        else none)
    List.insertionSort suffixLe candidates

/-- `choose_or_generate_scenario_id(for_date, logs_dir)`.  The interactive
answers are passed explicitly: `reuse_single` is the yes/no answer offered
when exactly one metadata-only scenario exists, and `select_multi` is the
menu selection when several exist (`none` meaning "create a new scenario
ID"; a selected empty string is falsy in Python and also falls through). -/
def choose_or_generate_scenario_id (reuse_single : Bool)
    (select_multi : List Str → Option Str) (for_date : Str)
    (logs_dir : Option (List Str)) : Str :=
  match list_metadata_only_scenarios logs_dir for_date with
  | [e] =>
    if reuse_single then e else generate_scenario_id for_date logs_dir
  | existing@(_ :: _ :: _) =>
    (match select_multi existing with
     | some s => if s = [] then generate_scenario_id for_date logs_dir else s
     | none => generate_scenario_id for_date logs_dir)
  | [] => generate_scenario_id for_date logs_dir

/-- UTF-8 byte length, matching `stat().st_size` for a text file. -/
def utf8Len (s : Str) : Nat := s.foldl (fun n c => n + c.utf8Size) 0

/-- Iterating a Python text file yields its lines with the trailing
newline kept and with no phantom empty line after a final newline.
Structural worker: `acc` holds the current line, reversed. -/
def pyLinesAux : Str → Str → List Str
  | acc, [] => if acc = [] then [] else [acc.reverse]
  | acc, c :: cs =>
    if c = '\n' then (acc.reverse ++ [c]) :: pyLinesAux [] cs else pyLinesAux (c :: acc) cs

/-- The lines of a file's content, as Python file iteration yields them. -/
def pyLines (content : Str) : List Str := pyLinesAux [] content

/-- Splitting on newline characters (the plain reading of "the lines of the
file"); used only on the specification side of claim C8. -/
def splitNl : Str → List Str
  | [] => [[]]
  | c :: cs =>
    if c = '\n' then [] :: splitNl cs
    else
      match splitNl cs with
      | s :: rest => (c :: s) :: rest
      | [] => [[c]]

/-- `line.strip()` is truthy exactly when the line has a non-whitespace
character. -/
def nonBlank (l : Str) : Bool := l.any (fun c => !(pyIsSpace c))

/-- Lines 397-402 of `update_master_index`: `file_size` is the archived
file's size (0 when it does not exist) and `record_count` is
`sum(1 for line in f if line.strip())` (0 when it does not exist).  The
archived file is `none` when absent, `some content` when present. -/
def compute_size_and_count (log_file : Option Str) : Nat × Nat :=
  match log_file with
  | none => (0, 0)
  | some content => (utf8Len content, (pyLines content).countP nonBlank)

/-- A CSV row as produced by `csv.DictReader`: an association list from
column name to value, in column order. -/
abbrev CsvRow := List (Str × Str)

/-- `row.get(k)`: the value at key `k`, if present. -/
def rowGet (r : CsvRow) (k : Str) : Option Str :=
  (r.find? (fun p => p.1 == k)).map Prod.snd

/-- The fixed schema written by `update_master_index`. -/
def FIELDNAMES : List Str :=
  [str "date", str "filename", str "file_size", str "record_count",
   str "metadata_file", str "created_at", str "test_description",
   str "log_link", str "metadata_link"]

/-- The persistent index file: a header line and data records.  A missing
or empty file is represented as `none` at the call sites. -/
structure CsvFile where
  header : List Str
  records : List (List Str)
deriving DecidableEq

/-- `csv.DictReader`: each record becomes a dict pairing the header's
column names with the record's values. -/
def readRows (f : CsvFile) : List CsvRow :=
  f.records.map (fun rec => f.header.zip rec)

/-- One output record of `csv.DictWriter.writerows`: the row's value for
each field name in order, the empty string for fields the row lacks
(`restval`). -/
def serializeRec (fieldnames : List Str) (r : CsvRow) : List Str :=
  fieldnames.map (fun k => (rowGet r k).getD [])

/-- `csv.DictWriter` with the given field names: writing fails (Python
raises `ValueError`) when some row has a key outside the field names,
otherwise the file holds the header plus the serialized records.  (Python
checks row by row while writing, so a late failure leaves a partial file;
no claim exercises the failing case.) -/
def writeCsv (fieldnames : List Str) (rows : List CsvRow) : Except Str CsvFile :=
  if rows.all (fun r => r.all (fun p => fieldnames.contains p.1)) then
    Except.ok ⟨fieldnames, rows.map (serializeRec fieldnames)⟩
  else
    Except.error (str "ValueError: dict contains fields not in fieldnames")

/-- The replacement/new row dict built inside `update_master_index`, with
the given `created_at` value. -/
def indexRow (date_str scenario_id test_type : Str)
    (file_size record_count : Nat) (log_link metadata_link : Str)
    (created_at : Str) : CsvRow :=
  [(str "date", date_str),
   (str "filename", scenario_id ++ str ".log"),
   (str "file_size", natDigits file_size),
   (str "record_count", natDigits record_count),
   (str "metadata_file", scenario_id ++ str ".metadata.json"),
   (str "created_at", created_at),
   (str "test_description", test_type),
   (str "log_link", log_link),
   (str "metadata_link", metadata_link)]

/-- `created_at` preservation of `update_master_index`: keep the existing
row's value when present and non-empty (truthy), else use the default
`f"{date_str}T{time_str}:00Z"`. -/
def createdFrom (r : CsvRow) (dflt : Str) : Str :=
  match rowGet r (str "created_at") with
  | some s => if s = [] then dflt else s
  | none => dflt

/-- Lines 440-475 of `update_master_index`: find the first row whose
`"filename"` equals the target, replace it in place (rebuilding it with
`created_at` taken from the old row when non-empty), else append the new
row at the end. -/
def upsertRows (filename : Str) (mk : Str → CsvRow) (dflt : Str) : List CsvRow → List CsvRow
  | [] => [mk dflt]
  | r :: rs =>
    if rowGet r (str "filename") = some filename then mk (createdFrom r dflt) :: rs
    else r :: upsertRows filename mk dflt rs

/-- `update_master_index(index_path, date_str, time_str, scenario_id,
test_type, log_path, metadata_path)`.  The index file state is `none` when
the file is missing or empty; `log_file` is the archived file's content
(`none` when absent); the two GitHub link strings, which the source derives
from module configuration and the artifact paths, are passed in. -/
def update_master_index (idx : Option CsvFile)
    (date_str time_str scenario_id test_type : Str)
    (log_file : Option Str) (log_link metadata_link : Str) : Except Str CsvFile :=
  let sc := compute_size_and_count log_file
  let rows := match idx with | none => [] | some f => readRows f
  let filename := scenario_id ++ str ".log"
  let dflt := date_str ++ str "T" ++ time_str ++ str ":00Z"
  let mk := fun c =>
    indexRow date_str scenario_id test_type sc.1 sc.2 log_link metadata_link c
  writeCsv FIELDNAMES (upsertRows filename mk dflt rows)

/-- The columns `cli/backfill_index_links.py` requires before writing. -/
def REQUIRED_COLS : List Str :=
  [str "date", str "filename", str "metadata_file", str "log_link", str "metadata_link"]

/-- Python dict assignment `row[k] = v`: replace the value in place, else
append the key. -/
def rowSet (r : CsvRow) (k v : Str) : CsvRow :=
  if (r.find? (fun p => p.1 == k)).isSome then
    r.map (fun p => if p.1 == k then (k, v) else p)
  else r ++ [(k, v)]

/-- `Path("logs") / date / name` rendered with `as_posix()`: empty
components vanish.  (Absolute components, which reset a `Path`, cannot
arise from the stripped CSV fields modelled here and are not treated.) -/
def joinSegs (segs : List Str) : Str :=
  List.intercalate (str "/") (segs.filter (fun s => s ≠ []))

/-- `f"https://github.com/{repo}/blob/main/{rel}"`. -/
def githubLink (repo rel : Str) : Str :=
  str "https://github.com/" ++ repo ++ str "/blob/main/" ++ rel

/-- The per-row link update of `backfill_index_links.main`. -/
def backfillRow (repo : Str) (r : CsvRow) : CsvRow :=
  let date_str := pyStrip ((rowGet r (str "date")).getD [])
  let filename := pyStrip ((rowGet r (str "filename")).getD [])
  let metadata_file := pyStrip ((rowGet r (str "metadata_file")).getD [])
  let r1 := rowSet r (str "log_link")
    (githubLink repo (joinSegs [str "logs", date_str, filename]))
  rowSet r1 (str "metadata_link")
    (githubLink repo (joinSegs [str "logs", date_str, metadata_file]))

/-- `main` of `cli/backfill_index_links.py`: returns the exit code and the
resulting index file state.  `repo` is the `GITHUB_REPO` configuration
string; the index file is `none` when missing or empty.  The required-column
check aborts with exit code 1 before any write.  (The `writeCsv` error
branch is unreachable here because every row key comes from the header.) -/
def backfill_index_links_main (repo : Str) (idx : Option CsvFile) : Nat × Option CsvFile :=
  if repo = [] then (1, idx)
  else
    match idx with
    | none => (0, none)
    | some f =>
      let fieldnames := f.header
      let missing := REQUIRED_COLS.filter (fun c => !(fieldnames.contains c))
      if missing ≠ [] then (1, some f)
      else
        match writeCsv fieldnames ((readRows f).map (backfillRow repo)) with
        | Except.ok g => (0, some g)
        | Except.error _ => (1, some f)

/-! ## Helper lemmas: decimal digit strings -/

theorem natDigitsAux_irrel (fuel₁ : Nat) : ∀ fuel₂ n, n < fuel₁ → n < fuel₂ →
    natDigitsAux fuel₁ n = natDigitsAux fuel₂ n := by
  induction fuel₁ with
  | zero => intro fuel₂ n h₁ _; omega
  | succ f ih =>
    intro fuel₂ n h₁ h₂
    cases fuel₂ with
    | zero => omega
    | succ g =>
      by_cases h10 : n < 10
      · simp [natDigitsAux, h10]
      · have hpos : 0 < n := by omega
        have hdiv : n / 10 < n := Nat.div_lt_self hpos (by omega)
        simp only [natDigitsAux, h10, if_false]
        rw [ih g (n / 10) (by omega) (by omega)]

theorem natDigits_unfold (n : Nat) :
    natDigits n = if n < 10 then [digitChar n] else natDigits (n / 10) ++ [digitChar (n % 10)] := by
  have step : natDigits n =
      if n < 10 then [digitChar n] else natDigitsAux n (n / 10) ++ [digitChar (n % 10)] := rfl
  rw [step]
  by_cases h10 : n < 10
  · simp [h10]
  · rw [if_neg h10, if_neg h10]
    have hpos : 0 < n := by omega
    have hdiv : n / 10 < n := Nat.div_lt_self hpos (by omega)
    rw [natDigitsAux_irrel n (n / 10 + 1) (n / 10) (by omega) (by omega)]
    rfl

theorem natDigits_length_pos (n : Nat) : 1 ≤ (natDigits n).length := by
  rw [natDigits_unfold]
  by_cases h10 : n < 10 <;> simp [h10]

theorem natDigits_length_le : ∀ k n, n < 10 ^ (k + 1) → (natDigits n).length ≤ k + 1 := by
  intro k
  induction k with
  | zero =>
    intro n hn
    rw [natDigits_unfold]
    have : n < 10 := by simpa using hn
    simp [this]
  | succ k ih =>
    intro n hn
    rw [natDigits_unfold]
    by_cases h10 : n < 10
    · simp [h10]
    · simp only [h10, if_false, List.length_append, List.length_singleton]
      have hdiv : n / 10 < 10 ^ (k + 1) := by
        rw [Nat.div_lt_iff_lt_mul (by omega)]
        calc n < 10 ^ (k + 2) := hn
        _ = 10 ^ (k + 1) * 10 := by ring
      have := ih (n / 10) hdiv
      omega

theorem natDigits_length_ge : ∀ k n, 10 ^ k ≤ n → k + 1 ≤ (natDigits n).length := by
  intro k
  induction k with
  | zero => intro n _; exact natDigits_length_pos n
  | succ k ih =>
    intro n hn
    have h10 : ¬ n < 10 := by
      intro h
      have : 10 ^ (k + 1) ≥ 10 := by
        calc 10 ^ (k + 1) = 10 * 10 ^ k := by ring
        _ ≥ 10 * 1 := by
              have : 1 ≤ 10 ^ k := Nat.one_le_pow _ _ (by omega)
              omega
      omega
    rw [natDigits_unfold]
    simp only [h10, if_false, List.length_append, List.length_singleton]
    have hdiv : 10 ^ k ≤ n / 10 := by
      rw [Nat.le_div_iff_mul_le (by omega)]
      calc 10 ^ k * 10 = 10 ^ (k + 1) := by ring
      _ ≤ n := hn
    have := ih (n / 10) hdiv
    omega

theorem digitChar_isDigit (d : Nat) (h : d < 10) : (digitChar d).isDigit := by
  interval_cases d <;> decide

theorem digitChar_toNat (d : Nat) (h : d < 10) : (digitChar d).toNat = 48 + d := by
  interval_cases d <;> decide

theorem natDigits_all_isDigit (n : Nat) : (natDigits n).all Char.isDigit := by
  induction n using Nat.strong_induction_on with
  | _ n ih =>
    rw [natDigits_unfold]
    by_cases h10 : n < 10
    · simp [h10, digitChar_isDigit n h10]
    · have hpos : 0 < n := by omega
      have hdiv : n / 10 < n := Nat.div_lt_self hpos (by omega)
      simp only [h10, if_false, List.all_append, Bool.and_eq_true]
      exact ⟨ih (n / 10) hdiv, by simp [digitChar_isDigit (n % 10) (Nat.mod_lt n (by omega))]⟩

theorem strVal_append_digit (xs : Str) (c : Char) :
    strVal (xs ++ [c]) = 10 * strVal xs + (c.toNat - 48) := by
  simp [strVal, List.foldl_append]

theorem strVal_natDigits (n : Nat) : strVal (natDigits n) = n := by
  induction n using Nat.strong_induction_on with
  | _ n ih =>
    rw [natDigits_unfold]
    by_cases h10 : n < 10
    · simp [h10, strVal, digitChar_toNat n h10]
    · have hpos : 0 < n := by omega
      have hdiv : n / 10 < n := Nat.div_lt_self hpos (by omega)
      simp only [h10, if_false]
      rw [strVal_append_digit, ih (n / 10) hdiv, digitChar_toNat (n % 10) (Nat.mod_lt n (by omega))]
      omega

theorem pad3_length_of_le (n : Nat) (h : n ≤ 999) : (pad3 n).length = 3 := by
  have hle : (natDigits n).length ≤ 3 := natDigits_length_le 2 n (by omega)
  simp only [pad3, List.length_append, List.length_replicate]
  omega

theorem pad3_eq_natDigits_of_gt (n : Nat) (h : 999 < n) : pad3 n = natDigits n := by
  have hge : 4 ≤ (natDigits n).length := natDigits_length_ge 3 n (by omega)
  simp only [pad3]
  have : 3 - (natDigits n).length = 0 := by omega
  simp [this]

theorem pad3_length_ge_of_gt (n : Nat) (h : 999 < n) : 4 ≤ (pad3 n).length := by
  rw [pad3_eq_natDigits_of_gt n h]
  exact natDigits_length_ge 3 n (by omega)

theorem strVal_replicate_zero (z : Nat) (xs : Str) :
    strVal (List.replicate z '0' ++ xs) = strVal xs := by
  induction z with
  | zero => simp
  | succ z ih =>
    rw [List.replicate_succ, List.cons_append]
    exact ih

theorem strVal_pad3 (n : Nat) : strVal (pad3 n) = n := by
  rw [pad3, strVal_replicate_zero, strVal_natDigits]

theorem pad3_all_isDigit (n : Nat) : (pad3 n).all Char.isDigit := by
  simp only [pad3, List.all_append, Bool.and_eq_true]
  refine ⟨?_, natDigits_all_isDigit n⟩
  simp only [List.all_eq_true]
  intro c hc
  rw [List.eq_of_mem_replicate hc]
  decide

/-! ## Helper lemmas: the next-index fold of `generate_scenario_id` -/

theorem foldl_bump_eq_foldl_max (l : List Nat) :
    ∀ a : Nat, l.foldl (fun acc i => if acc ≤ i then i + 1 else acc) (a + 1) =
      l.foldl max a + 1 := by
  induction l with
  | nil => intro a; rfl
  | cons hd tl ih =>
    intro a
    have hstep : (if a + 1 ≤ hd then hd + 1 else a + 1) = max a hd + 1 := by
      rcases le_total a hd with h | h
      · rw [max_eq_right h]
        split_ifs <;> omega
      · rw [max_eq_left h]
        split_ifs <;> omega
    rw [List.foldl_cons, List.foldl_cons, hstep, ih (max a hd)]

theorem foldl_bump_one (l : List Nat) :
    l.foldl (fun acc i => if acc ≤ i then i + 1 else acc) 1 = l.foldl max 0 + 1 := by
  simpa using foldl_bump_eq_foldl_max l 0

theorem init_le_foldl_max (l : List Nat) : ∀ a : Nat, a ≤ l.foldl max a := by
  induction l with
  | nil => intro a; exact le_refl a
  | cons hd tl ih =>
    intro a
    calc a ≤ max a hd := le_max_left a hd
    _ ≤ tl.foldl max (max a hd) := ih (max a hd)

theorem mem_le_foldl_max (l : List Nat) : ∀ (a x : Nat), x ∈ l → x ≤ l.foldl max a := by
  induction l with
  | nil => intro a x hx; simp at hx
  | cons hd tl ih =>
    intro a x hx
    rcases List.mem_cons.mp hx with rfl | hx'
    · calc x ≤ max a x := le_max_right a x
      _ ≤ tl.foldl max (max a x) := init_le_foldl_max tl (max a x)
    · exact ih (max a hd) x hx'

/-- The suffixes of the archive directory's `.log` files that match the
canonical three-digit pattern for the date. -/
def matchedSuffixes (tok : Str) (names : List Str) : List Nat :=
  (globLogs names).filterMap (parseSuffix3 tok)

theorem foldl_bumpStep (tok : Str) :
    ∀ (l : List Str) (i : Nat),
      l.foldl (bumpStep tok) i =
        (l.filterMap (parseSuffix3 tok)).foldl
          (fun acc idx => if acc ≤ idx then idx + 1 else acc) i := by
  intro l
  induction l with
  | nil => intro i; rfl
  | cons hd tl ih =>
    intro i
    rw [List.foldl_cons]
    cases hfd : parseSuffix3 tok hd <;>
      simp [List.filterMap_cons, hfd, bumpStep, ih]

theorem generate_scenario_id_eq (for_date : Str) (names : List Str) :
    generate_scenario_id for_date (some names) =
      scnPrefix (dateToken for_date) ++
        pad3 ((matchedSuffixes (dateToken for_date) names).foldl max 0 + 1) := by
  show scnPrefix (dateToken for_date) ++
      pad3 ((globLogs names).foldl (bumpStep (dateToken for_date)) 1) = _
  rw [foldl_bumpStep, foldl_bump_one]
  rfl

/-- C1.  `generate_scenario_id` returns `SCN_<D>_<NNN>` where `NNN` is one
more than the maximum suffix among the `.log` filenames matching the
canonical three-digit pattern for the date (the fold's maximum is 0 when no
file matches, giving `NNN = 1`), and returns suffix 1 when the directory is
absent; filenames that do not match the pattern contribute nothing to the
fold and cause no error. -/
theorem claim_C1_next_identifier (for_date : Str) (names : List Str) :
    generate_scenario_id for_date (some names) =
      scnPrefix (dateToken for_date) ++
        pad3 ((matchedSuffixes (dateToken for_date) names).foldl max 0 + 1) ∧
    generate_scenario_id for_date none = scnPrefix (dateToken for_date) ++ pad3 1 := by
  exact ⟨generate_scenario_id_eq for_date names, rfl⟩

/-- C9.  The scan of `generate_scenario_id` matches only three-digit
suffixes while the result is formatted with a minimum of three digits: with
`SCN_2025_08_12_999.log` present the function returns the four-digit
identifier `SCN_2025_08_12_1000`; with `SCN_2025_08_12_1000.log` also
present, that file fails the three-digit pattern, so the function again
returns `SCN_2025_08_12_1000` — an identifier whose `.log` file already
exists in the directory. -/
theorem claim_C9_three_digit_overflow :
    parseSuffix3 (str "2025_08_12") (str "SCN_2025_08_12_999.log") = some 999 ∧
    parseSuffix3 (str "2025_08_12") (str "SCN_2025_08_12_1000.log") = none ∧
    generate_scenario_id (str "2025-08-12") (some [str "SCN_2025_08_12_999.log"]) =
      str "SCN_2025_08_12_1000" ∧
    generate_scenario_id (str "2025-08-12")
        (some [str "SCN_2025_08_12_999.log", str "SCN_2025_08_12_1000.log"]) =
      str "SCN_2025_08_12_1000" ∧
    str "SCN_2025_08_12_1000" ++ str ".log" ∈
      [str "SCN_2025_08_12_999.log", str "SCN_2025_08_12_1000.log"] := by
  decide

/-! ## Helper lemmas: line counting (claim C8) -/

theorem splitNl_cons_shape (c : Str) : ∃ s rest, splitNl c = s :: rest := by
  induction c with
  | nil => exact ⟨[], [], rfl⟩
  | cons hd tl ih =>
    obtain ⟨s, rest, hs⟩ := ih
    by_cases hnl : hd = '\n'
    · exact ⟨[], splitNl tl, by simp [splitNl, hnl]⟩
    · exact ⟨hd :: s, rest, by simp [splitNl, hnl, hs]⟩

theorem nonBlank_append (a b : Str) : nonBlank (a ++ b) = (nonBlank a || nonBlank b) := by
  simp [nonBlank, List.any_append]

theorem pyLinesAux_countP :
    ∀ (c acc s : Str) (rest : List Str), splitNl c = s :: rest →
      (pyLinesAux acc c).countP nonBlank =
        (if nonBlank (acc.reverse ++ s) then 1 else 0) + rest.countP nonBlank := by
  intro c
  induction c with
  | nil =>
    intro acc s rest hsplit
    have hs : s = [] ∧ rest = [] := by
      have : ([] : Str) :: ([] : List Str) = s :: rest := hsplit.symm ▸ rfl
      exact ⟨(List.cons.injEq _ _ _ _ ▸ this).1.symm, (List.cons.injEq _ _ _ _ ▸ this).2.symm⟩
    obtain ⟨rfl, rfl⟩ := hs
    by_cases hacc : acc = []
    · simp [pyLinesAux, hacc, nonBlank]
    · simp only [pyLinesAux, hacc, if_false, List.append_nil, List.countP_cons,
        List.countP_nil]
      by_cases hnb : nonBlank acc.reverse <;> simp [hnb]
  | cons hd tl ih =>
    intro acc s rest hsplit
    by_cases hnl : hd = '\n'
    · subst hnl
      have hsp : splitNl ('\n' :: tl) = [] :: splitNl tl := by simp [splitNl]
      rw [hsp] at hsplit
      obtain ⟨rfl, hrest⟩ : s = [] ∧ splitNl tl = rest :=
        ⟨(List.cons.injEq _ _ _ _ ▸ hsplit).1.symm, (List.cons.injEq _ _ _ _ ▸ hsplit).2⟩
      obtain ⟨s', rest', hs'⟩ := splitNl_cons_shape tl
      have lhs_eq : pyLinesAux acc ('\n' :: tl) =
          (acc.reverse ++ ['\n']) :: pyLinesAux [] tl := by simp [pyLinesAux]
      rw [lhs_eq, List.countP_cons, ih [] s' rest' hs']
      rw [← hrest, hs', List.countP_cons]
      have h1 : nonBlank (acc.reverse ++ ['\n']) = nonBlank acc.reverse := by
        rw [nonBlank_append]
        have : nonBlank ['\n'] = false := by decide
        simp [this]
      have h2 : nonBlank (acc.reverse ++ []) = nonBlank acc.reverse := by
        simp
      rw [h1, h2]
      by_cases ha : nonBlank acc.reverse <;> by_cases hb : nonBlank s' <;>
        simp [ha, hb] <;> omega
    · obtain ⟨s0, rest0, hs0⟩ := splitNl_cons_shape tl
      have hsp : splitNl (hd :: tl) = (hd :: s0) :: rest0 := by
        simp [splitNl, hnl, hs0]
      rw [hsp] at hsplit
      obtain ⟨hse, hre⟩ : hd :: s0 = s ∧ rest0 = rest :=
        ⟨(List.cons.injEq _ _ _ _ ▸ hsplit).1, (List.cons.injEq _ _ _ _ ▸ hsplit).2⟩
      have lhs_eq : pyLinesAux acc (hd :: tl) = pyLinesAux (hd :: acc) tl := by
        simp [pyLinesAux, hnl]
      rw [lhs_eq, ih (hd :: acc) s0 rest0 hs0, ← hse, ← hre]
      have : (hd :: acc).reverse ++ s0 = acc.reverse ++ (hd :: s0) := by
        simp
      rw [this]

/-- C8.  The derived index-row fields: when the archived file does not
exist, both the file size and the record count are 0; when it exists, the
record count equals the number of non-blank lines of the content — a line
(a newline-separated segment) counting exactly when it is non-empty after
stripping whitespace. -/
theorem claim_C8_size_and_count :
    compute_size_and_count none = (0, 0) ∧
    ∀ content : Str,
      (compute_size_and_count (some content)).2 = (splitNl content).countP nonBlank := by
  refine ⟨rfl, ?_⟩
  intro content
  obtain ⟨s, rest, hs⟩ := splitNl_cons_shape content
  show (pyLines content).countP nonBlank = _
  rw [pyLines, pyLinesAux_countP content [] s rest hs, hs, List.countP_cons]
  have : (([] : Str).reverse ++ s) = s := by simp
  rw [this]
  by_cases hb : nonBlank s <;> simp [hb] <;> omega

/-! ## Claim C7: pending-scenario listing -/

/-- C7.  `list_metadata_only_scenarios` returns exactly the identifiers
derived from a metadata file (any name the glob matches, hidden names
included) that match the date's identifier prefix and have no
correspondingly named archived `.log` file; the result is sorted ascending
by numeric suffix; no identifier whose archived file exists appears; a
missing directory yields the empty list.  The function is a pure scan (the
embedding is a function of the directory listing alone; the original reads
but never writes the file system). -/
theorem claim_C7_list_pending (for_date : Str) (names : List Str) :
    (∀ sid : Str,
      sid ∈ list_metadata_only_scenarios (some names) for_date ↔
        ∃ name ∈ names, (str ".metadata.json") <:+ name ∧
          scenarioIdOf name = sid ∧ (scnPrefix (dateToken for_date)) <+: sid ∧
          (sid ++ str ".log") ∉ names) ∧
    List.Sorted suffixLe (list_metadata_only_scenarios (some names) for_date) ∧
    (∀ sid ∈ list_metadata_only_scenarios (some names) for_date,
      (sid ++ str ".log") ∉ names) ∧
    list_metadata_only_scenarios none for_date = [] := by
  have hmem : ∀ sid : Str,
      sid ∈ list_metadata_only_scenarios (some names) for_date ↔
        ∃ name ∈ names, (str ".metadata.json") <:+ name ∧
          scenarioIdOf name = sid ∧ (scnPrefix (dateToken for_date)) <+: sid ∧
          (sid ++ str ".log") ∉ names := by
    intro sid
    show sid ∈ List.insertionSort suffixLe _ ↔ _
    rw [(List.perm_insertionSort suffixLe _).mem_iff, List.mem_filterMap]
    constructor
    · rintro ⟨name, hname, hf⟩
      rw [globMeta, List.mem_filter] at hname
      obtain ⟨hmem', hcond⟩ := hname
      by_cases hc : !(names.contains (scenarioIdOf name ++ str ".log")) &&
          (scnPrefix (dateToken for_date)).isPrefixOf (scenarioIdOf name)
      · rw [if_pos hc] at hf
        rw [Bool.and_eq_true, Bool.not_eq_true'] at hc
        refine ⟨name, hmem', ?_, Option.some.inj hf, ?_, ?_⟩
        · exact (List.isSuffixOf_iff_suffix).mp hcond
        · rw [Option.some.inj hf] at hc
          exact (List.isPrefixOf_iff_prefix).mp hc.2
        · rw [Option.some.inj hf] at hc
          intro habs
          have : names.contains (sid ++ str ".log") = true := by
            rw [List.contains, List.elem_iff]
            exact habs
          rw [this] at hc
          exact absurd hc.1 (by simp)
      · rw [if_neg hc] at hf
        exact absurd hf (by simp)
    · rintro ⟨name, hmem', hsuf, hsid, hpref, hnlog⟩
      refine ⟨name, ?_, ?_⟩
      · rw [globMeta, List.mem_filter]
        exact ⟨hmem', (List.isSuffixOf_iff_suffix).mpr hsuf⟩
      · have hc : (!(names.contains (scenarioIdOf name ++ str ".log")) &&
            (scnPrefix (dateToken for_date)).isPrefixOf (scenarioIdOf name)) = true := by
          rw [Bool.and_eq_true, Bool.not_eq_true']
          constructor
          · rw [hsid]
            by_cases h : names.contains (sid ++ str ".log") = true
            · rw [List.contains, List.elem_iff] at h
              exact absurd h hnlog
            · simpa using h
          · rw [hsid]
            exact (List.isPrefixOf_iff_prefix).mpr hpref
        rw [if_pos hc, hsid]
  refine ⟨hmem, ?_, ?_, rfl⟩
  · exact List.sorted_insertionSort suffixLe _
  · intro sid hsid
    obtain ⟨name, _, _, _, _, hnot⟩ := (hmem sid).mp hsid
    exact hnot

/-- Closed instance of C7 discharging its membership hypothesis: in a
directory holding only `SCN_2025_08_12_003.metadata.json`, the listed
pending identifier has no archived file. -/
theorem claim_C7_witness :
    (str "SCN_2025_08_12_003" ++ str ".log") ∉ [str "SCN_2025_08_12_003.metadata.json"] :=
  (claim_C7_list_pending (str "2025-08-12")
      [str "SCN_2025_08_12_003.metadata.json"]).2.2.1
    (str "SCN_2025_08_12_003") (by decide)

/-! ## Claim C2: resolve falls through to the generator -/

theorem parse_some_structure (tok name : Str) (s : Nat)
    (h : parseSuffix3 tok name = some s) :
    ∃ t3 : Str, name = scnPrefix tok ++ (t3 ++ str ".log") ∧ t3.length = 3 ∧
      t3.all Char.isDigit ∧ strVal t3 = s := by
  rw [parseSuffix3] at h
  by_cases hp : (scnPrefix tok).isPrefixOf name
  · rw [if_pos hp] at h
    by_cases hc : (name.drop (scnPrefix tok).length).length = 7 ∧
        ((name.drop (scnPrefix tok).length).take 3).all Char.isDigit ∧
        (name.drop (scnPrefix tok).length).drop 3 = str ".log"
    · rw [if_pos hc] at h
      obtain ⟨t, ht⟩ : scnPrefix tok <+: name := (List.isPrefixOf_iff_prefix).mp hp
      have hrest : name.drop (scnPrefix tok).length = t := by
        rw [← ht]; exact List.drop_left _ _
      rw [hrest] at h hc
      refine ⟨t.take 3, ?_, ?_, hc.2.1, Option.some.inj h⟩
      · rw [← ht]
        congr 1
        rw [← hc.2.2]
        exact (List.take_append_drop 3 t).symm
      · rw [List.length_take, hc.1]
        omega
    · rw [if_neg hc] at h
      exact absurd h (by simp)
  · rw [if_neg hp] at h
    exact absurd h (by simp)

theorem parse_padded (tok : Str) (N : Nat) :
    parseSuffix3 tok (scnPrefix tok ++ (pad3 N ++ str ".log")) =
      if N ≤ 999 then some N else none := by
  have hp : (scnPrefix tok).isPrefixOf (scnPrefix tok ++ (pad3 N ++ str ".log")) :=
    (List.isPrefixOf_iff_prefix).mpr ⟨_, rfl⟩
  rw [parseSuffix3]
  rw [if_pos hp]
  have hdropX : (scnPrefix tok ++ (pad3 N ++ str ".log")).drop (scnPrefix tok).length =
      pad3 N ++ str ".log" := List.drop_left _ _
  rw [hdropX]
  by_cases hN : N ≤ 999
  · have hlen : (pad3 N).length = 3 := pad3_length_of_le N hN
    have hcond : (pad3 N ++ str ".log").length = 7 ∧
        ((pad3 N ++ str ".log").take 3).all Char.isDigit ∧
        (pad3 N ++ str ".log").drop 3 = str ".log" := by
      refine ⟨?_, ?_, ?_⟩
      · rw [List.length_append, hlen]; rfl
      · rw [List.take_left' hlen]
        exact pad3_all_isDigit N
      · rw [List.drop_left' hlen]
    rw [if_pos hcond, if_pos hN]
    rw [List.take_left' hlen, strVal_pad3]
  · have hge : 4 ≤ (pad3 N).length := pad3_length_ge_of_gt N (by omega)
    have hcond : ¬((pad3 N ++ str ".log").length = 7 ∧
        ((pad3 N ++ str ".log").take 3).all Char.isDigit ∧
        (pad3 N ++ str ".log").drop 3 = str ".log") := by
      intro habs
      have := habs.1
      rw [List.length_append] at this
      have h4 : (str ".log").length = 4 := rfl
      omega
    rw [if_neg hcond, if_neg hN]

theorem parse_mem_matchedSuffixes (tok : Str) (names : List Str) (name : Str) (s : Nat)
    (hmem : name ∈ names) (h : parseSuffix3 tok name = some s) :
    s ∈ matchedSuffixes tok names := by
  obtain ⟨t3, hname, _, _, _⟩ := parse_some_structure tok name s h
  have hsuffix : (str ".log").isSuffixOf name := by
    rw [List.isSuffixOf_iff_suffix, hname]
    refine ⟨scnPrefix tok ++ t3, ?_⟩
    rw [List.append_assoc]
  have hglob : name ∈ globLogs names := by
    rw [globLogs, List.mem_filter]
    exact ⟨hmem, hsuffix⟩
  rw [matchedSuffixes, List.mem_filterMap]
  exact ⟨name, hglob, h⟩

/-- The directory contents refuting claim C2 as stated: two archived files
and one pending (metadata-only) scenario `SCN_2025_08_12_003`. -/
def C2exNames : List Str :=
  [str "SCN_2025_08_12_001.log", str "SCN_2025_08_12_002.log",
   str "SCN_2025_08_12_003.metadata.json"]

/-- Counterexample to C2 as stated: `SCN_2025_08_12_003` is the single
pending (metadata-only) identifier; declining its reuse makes
`choose_or_generate_scenario_id` fall through to the generator, which scans
only archived `.log` files and returns that very same identifier — a
duplicate of a pending identifier. -/
theorem claim_C2_counterexample :
    list_metadata_only_scenarios (some C2exNames) (str "2025-08-12") =
      [str "SCN_2025_08_12_003"] ∧
    choose_or_generate_scenario_id false (fun _ => none) (str "2025-08-12")
        (some C2exNames) =
      str "SCN_2025_08_12_003" := by
  decide

/-- C2 (amended).  Declining reuse of the single pending identifier, or
selecting "new" among several, always falls through to
`generate_scenario_id`; the generated identifier is distinct from every
archived identifier matching the canonical three-digit pattern for the date
— but, as the counterexample shows, it can coincide with a pending
(metadata-only) identifier, because the generator scans only archived
`.log` files. -/
theorem claim_C2_amended_no_archived_duplicate (for_date : Str) (names : List Str) :
    (∀ (e : Str) (sel : List Str → Option Str),
      list_metadata_only_scenarios (some names) for_date = [e] →
      choose_or_generate_scenario_id false sel for_date (some names) =
        generate_scenario_id for_date (some names)) ∧
    (∀ (b : Bool) (sel : List Str → Option Str),
      2 ≤ (list_metadata_only_scenarios (some names) for_date).length →
      sel (list_metadata_only_scenarios (some names) for_date) = none →
      choose_or_generate_scenario_id b sel for_date (some names) =
        generate_scenario_id for_date (some names)) ∧
    (∀ name ∈ names, (parseSuffix3 (dateToken for_date) name).isSome →
      generate_scenario_id for_date (some names) ++ str ".log" ≠ name) := by
  refine ⟨?_, ?_, ?_⟩
  · intro e sel hlist
    rw [choose_or_generate_scenario_id, hlist]
    simp
  · intro b sel hlen hsel
    rcases hlist : list_metadata_only_scenarios (some names) for_date with _ | ⟨a, _ | ⟨c, rest⟩⟩
    · rw [hlist] at hlen; simp at hlen
    · rw [hlist] at hlen; simp at hlen
    · rw [hlist] at hsel
      rw [choose_or_generate_scenario_id, hlist]
      simp [hsel]
  · intro name hmem hsome
    obtain ⟨s, hs⟩ := Option.isSome_iff_exists.mp hsome
    intro habs
    have hgen := generate_scenario_id_eq for_date names
    set M := (matchedSuffixes (dateToken for_date) names).foldl max 0 with hM
    have hsM : s ≤ M :=
      mem_le_foldl_max _ 0 s (parse_mem_matchedSuffixes _ names name s hmem hs)
    have hparse2 : parseSuffix3 (dateToken for_date) name =
        if M + 1 ≤ 999 then some (M + 1) else none := by
      rw [← habs, hgen, List.append_assoc]
      exact parse_padded (dateToken for_date) (M + 1)
    rw [hs] at hparse2
    by_cases hMle : M + 1 ≤ 999
    · rw [if_pos hMle] at hparse2
      have : s = M + 1 := Option.some.inj hparse2
      omega
    · rw [if_neg hMle] at hparse2
      exact absurd hparse2 (by simp)

/-- Closed instance of the amended C2 at the counterexample directory:
declining reuse falls through to the generator, and the generated
identifier does not name any canonically archived file. -/
theorem claim_C2_amended_witness :
    choose_or_generate_scenario_id false (fun _ => none) (str "2025-08-12")
        (some C2exNames) =
      generate_scenario_id (str "2025-08-12") (some C2exNames) ∧
    generate_scenario_id (str "2025-08-12") (some C2exNames) ++ str ".log" ≠
      str "SCN_2025_08_12_002.log" :=
  ⟨(claim_C2_amended_no_archived_duplicate (str "2025-08-12") C2exNames).1
      (str "SCN_2025_08_12_003") (fun _ => none) (by decide),
   (claim_C2_amended_no_archived_duplicate (str "2025-08-12") C2exNames).2.2
      (str "SCN_2025_08_12_002.log") (by decide) (by decide)⟩

/-! ## Helper lemmas: the index upsert -/

theorem exists_first_split {α : Type} (P : α → Prop) [DecidablePred P] :
    ∀ l : List α, (∀ x ∈ l, ¬ P x) ∨
      ∃ pre m post, l = pre ++ m :: post ∧ (∀ x ∈ pre, ¬ P x) ∧ P m := by
  intro l
  induction l with
  | nil => exact Or.inl (by simp)
  | cons hd tl ih =>
    by_cases hP : P hd
    · exact Or.inr ⟨[], hd, tl, rfl, by simp, hP⟩
    · rcases ih with hall | ⟨pre, m, post, heq, hpre, hm⟩
      · refine Or.inl ?_
        intro x hx
        rcases List.mem_cons.mp hx with rfl | hx'
        · exact hP
        · exact hall x hx'
      · refine Or.inr ⟨hd :: pre, m, post, by rw [heq, List.cons_append], ?_, hm⟩
        intro x hx
        rcases List.mem_cons.mp hx with rfl | hx'
        · exact hP
        · exact hpre x hx'

theorem rowGet_indexRow_filename (d sid ty : Str) (fs rc : Nat) (ll ml c : Str) :
    rowGet (indexRow d sid ty fs rc ll ml c) (str "filename") = some (sid ++ str ".log") := rfl

theorem rowGet_indexRow_created (d sid ty : Str) (fs rc : Nat) (ll ml c : Str) :
    rowGet (indexRow d sid ty fs rc ll ml c) (str "created_at") = some c := rfl

theorem serializeRec_indexRow (d sid ty : Str) (fs rc : Nat) (ll ml c : Str) :
    serializeRec FIELDNAMES (indexRow d sid ty fs rc ll ml c) =
      [d, sid ++ str ".log", natDigits fs, natDigits rc, sid ++ str ".metadata.json",
       c, ty, ll, ml] := rfl

theorem exists_nine (rec : List Str) (h : rec.length = 9) :
    ∃ v0 v1 v2 v3 v4 v5 v6 v7 v8, rec = [v0, v1, v2, v3, v4, v5, v6, v7, v8] := by
  rcases rec with _ | ⟨v0, _ | ⟨v1, _ | ⟨v2, _ | ⟨v3, _ | ⟨v4, _ | ⟨v5, _ | ⟨v6, _ |
    ⟨v7, _ | ⟨v8, _ | ⟨v9, t⟩⟩⟩⟩⟩⟩⟩⟩⟩⟩ <;>
    first
      | exact ⟨_, _, _, _, _, _, _, _, _, rfl⟩
      | (simp only [List.length_cons, List.length_nil] at h; omega)

theorem serializeRec_zip_nine (rec : List Str) (h : rec.length = 9) :
    serializeRec FIELDNAMES (FIELDNAMES.zip rec) = rec := by
  obtain ⟨v0, v1, v2, v3, v4, v5, v6, v7, v8, rfl⟩ := exists_nine rec h
  rfl

theorem rowGet_zip_filename (rec : List Str) (h : rec.length = 9) :
    rowGet (FIELDNAMES.zip rec) (str "filename") = rec[1]? := by
  obtain ⟨v0, v1, v2, v3, v4, v5, v6, v7, v8, rfl⟩ := exists_nine rec h
  rfl

theorem rowGet_zip_created (rec : List Str) (h : rec.length = 9) :
    rowGet (FIELDNAMES.zip rec) (str "created_at") = rec[5]? := by
  obtain ⟨v0, v1, v2, v3, v4, v5, v6, v7, v8, rfl⟩ := exists_nine rec h
  rfl

theorem zip_keys_mem (hd : List Str) (rec : List Str) :
    ∀ p ∈ hd.zip rec, p.1 ∈ hd := by
  intro p hp
  obtain ⟨a, b⟩ := p
  exact (List.of_mem_zip hp).1

theorem indexRow_keys (d sid ty : Str) (fs rc : Nat) (ll ml c : Str) :
    ∀ p ∈ indexRow d sid ty fs rc ll ml c, p.1 ∈ FIELDNAMES := by
  intro p hp
  simp only [indexRow, List.mem_cons, List.mem_singleton, List.not_mem_nil, or_false] at hp
  rcases hp with rfl | rfl | rfl | rfl | rfl | rfl | rfl | rfl | rfl <;> simp [FIELDNAMES]

theorem upsertRows_keys (F : Str) (mk : Str → CsvRow) (dflt : Str) (fieldnames : List Str)
    (hmk : ∀ c, ∀ p ∈ mk c, p.1 ∈ fieldnames) :
    ∀ rows : List CsvRow, (∀ r ∈ rows, ∀ p ∈ r, p.1 ∈ fieldnames) →
      ∀ r ∈ upsertRows F mk dflt rows, ∀ p ∈ r, p.1 ∈ fieldnames := by
  intro rows
  induction rows with
  | nil =>
    intro _ r hr
    rw [upsertRows] at hr
    rcases List.mem_singleton.mp hr with rfl
    exact hmk dflt
  | cons hd tl ih =>
    intro hall r hr
    rw [upsertRows] at hr
    by_cases hmatch : rowGet hd (str "filename") = some F
    · rw [if_pos hmatch] at hr
      rcases List.mem_cons.mp hr with rfl | hr'
      · exact hmk _
      · exact hall r (List.mem_cons_of_mem hd hr')
    · rw [if_neg hmatch] at hr
      rcases List.mem_cons.mp hr with rfl | hr'
      · exact hall r (List.mem_cons_self _ _)
      · exact ih (fun r' hr' => hall r' (List.mem_cons_of_mem hd hr')) r hr'

theorem upsertRows_all_nonmatch (F : Str) (mk : Str → CsvRow) (dflt : Str) :
    ∀ rows : List CsvRow, (∀ r ∈ rows, rowGet r (str "filename") ≠ some F) →
      upsertRows F mk dflt rows = rows ++ [mk dflt] := by
  intro rows
  induction rows with
  | nil => intro _; rfl
  | cons hd tl ih =>
    intro hall
    rw [upsertRows, if_neg (hall hd (List.mem_cons_self _ _)), List.cons_append,
      ih (fun r hr => hall r (List.mem_cons_of_mem hd hr))]

theorem upsertRows_first_match (F : Str) (mk : Str → CsvRow) (dflt : Str) :
    ∀ (pre : List CsvRow) (m : CsvRow) (post : List CsvRow),
      (∀ r ∈ pre, rowGet r (str "filename") ≠ some F) →
      rowGet m (str "filename") = some F →
      upsertRows F mk dflt (pre ++ m :: post) =
        pre ++ mk (createdFrom m dflt) :: post := by
  intro pre
  induction pre with
  | nil =>
    intro m post _ hm
    rw [List.nil_append, upsertRows, if_pos hm, List.nil_append]
  | cons hd tl ih =>
    intro m post hpre hm
    rw [List.cons_append, upsertRows, if_neg (hpre hd (List.mem_cons_self _ _)),
      ih m post (fun r hr => hpre r (List.mem_cons_of_mem hd hr)) hm, List.cons_append]

theorem writeCsv_ok_of_keys (fieldnames : List Str) (rows : List CsvRow)
    (h : ∀ r ∈ rows, ∀ p ∈ r, p.1 ∈ fieldnames) :
    writeCsv fieldnames rows =
      Except.ok ⟨fieldnames, rows.map (serializeRec fieldnames)⟩ := by
  rw [writeCsv, if_pos]
  rw [List.all_eq_true]
  intro r hr
  rw [List.all_eq_true]
  intro p hp
  rw [List.contains, List.elem_iff]
  exact h r hr p hp

theorem getElem?_middle_eq {α : Type} (pre post : List α) (x y : α) (i : Nat)
    (hne : i ≠ pre.length) :
    (pre ++ x :: post)[i]? = (pre ++ y :: post)[i]? := by
  by_cases hlt : i < pre.length
  · rw [List.getElem?_append_left hlt, List.getElem?_append_left hlt]
  · have hgt : pre.length < i := by omega
    rw [List.getElem?_append_right (by omega), List.getElem?_append_right (by omega)]
    have hsub : i - pre.length = (i - pre.length - 1) + 1 := by omega
    rw [hsub, List.getElem?_cons_succ, List.getElem?_cons_succ]

theorem split_at_getElem? {α : Type} (l : List α) (i : Nat) (x : α) (h : l[i]? = some x) :
    l = l.take i ++ x :: l.drop (i + 1) ∧ (l.take i).length = i := by
  obtain ⟨hlt, hx⟩ := List.getElem?_eq_some.mp h
  constructor
  · conv_lhs => rw [← List.take_append_drop i l]
    rw [List.drop_eq_getElem_cons hlt, hx]
  · rw [List.length_take]
    omega

theorem mem_take_exists_getElem? {α : Type} (l : List α) (i : Nat) (x : α)
    (hx : x ∈ l.take i) : ∃ j, j < i ∧ l[j]? = some x := by
  obtain ⟨j, hj, hget⟩ := List.getElem_of_mem hx
  have hj' : j < i := by
    rw [List.length_take] at hj
    omega
  refine ⟨j, hj', ?_⟩
  have h1 : (l.take i)[j]? = some x := by
    rw [List.getElem?_eq_getElem hj, hget]
  rw [List.getElem?_take] at h1
  rw [if_pos hj'] at h1
  exact h1

theorem map_serialize_zip_nine (rl : List (List Str)) (hlen : ∀ rec ∈ rl, rec.length = 9) :
    (rl.map (fun rec => FIELDNAMES.zip rec)).map (serializeRec FIELDNAMES) = rl := by
  rw [List.map_map]
  have h : rl.map (serializeRec FIELDNAMES ∘ fun rec => FIELDNAMES.zip rec) = rl.map id := by
    apply List.map_congr_left
    intro rec hrec
    show serializeRec FIELDNAMES (FIELDNAMES.zip rec) = rec
    exact serializeRec_zip_nine rec (hlen rec hrec)
  rw [h, List.map_id]

/-- The replace case of `update_master_index` on a well-formed index file:
the first record keyed by the target filename is rebuilt in place from the
new fields, with `created_at` kept from the old record when non-empty. -/
theorem update_master_index_split
    (f : CsvFile) (d t sid ty : Str) (lf : Option Str) (ll ml : Str)
    (pre post : List (List Str)) (m : List Str)
    (hh : f.header = FIELDNAMES)
    (hr : ∀ rec ∈ f.records, rec.length = 9)
    (hsplit : f.records = pre ++ m :: post)
    (hpre : ∀ rec ∈ pre, ¬(rec[1]? = some (sid ++ str ".log")))
    (hm : m[1]? = some (sid ++ str ".log")) :
    update_master_index (some f) d t sid ty lf ll ml =
      Except.ok ⟨FIELDNAMES,
        pre ++
          [d, sid ++ str ".log", natDigits (compute_size_and_count lf).1,
           natDigits (compute_size_and_count lf).2, sid ++ str ".metadata.json",
           (match m[5]? with
            | some s => if s = [] then d ++ str "T" ++ t ++ str ":00Z" else s
            | none => d ++ str "T" ++ t ++ str ":00Z"),
           ty, ll, ml] :: post⟩ := by
  have hlen_pre : ∀ rec ∈ pre, rec.length = 9 := by
    intro rec hrec
    exact hr rec (by rw [hsplit]; exact List.mem_append_left _ hrec)
  have hlen_m : m.length = 9 :=
    hr m (by rw [hsplit]; exact List.mem_append_right _ (List.mem_cons_self _ _))
  have hlen_post : ∀ rec ∈ post, rec.length = 9 := by
    intro rec hrec
    exact hr rec (by rw [hsplit]; exact List.mem_append_right _ (List.mem_cons_of_mem m hrec))
  show writeCsv FIELDNAMES
      (upsertRows (sid ++ str ".log")
        (fun c => indexRow d sid ty (compute_size_and_count lf).1
          (compute_size_and_count lf).2 ll ml c)
        (d ++ str "T" ++ t ++ str ":00Z") (readRows f)) = _
  rw [readRows, hh, hsplit, List.map_append, List.map_cons]
  rw [upsertRows_first_match _ _ _ _ _ _
    (by
      intro r hr'
      obtain ⟨rec, hrec, rfl⟩ := List.mem_map.mp hr'
      rw [rowGet_zip_filename rec (hlen_pre rec hrec)]
      exact hpre rec hrec)
    (by rw [rowGet_zip_filename m hlen_m]; exact hm)]
  have hcreated : createdFrom (FIELDNAMES.zip m) (d ++ str "T" ++ t ++ str ":00Z") =
      (match m[5]? with
       | some s => if s = [] then d ++ str "T" ++ t ++ str ":00Z" else s
       | none => d ++ str "T" ++ t ++ str ":00Z") := by
    rw [createdFrom, rowGet_zip_created m hlen_m]
    rfl
  rw [hcreated]
  rw [writeCsv_ok_of_keys]
  · rw [List.map_append, List.map_cons]
    rw [map_serialize_zip_nine pre hlen_pre, map_serialize_zip_nine post hlen_post,
      serializeRec_indexRow]
  · intro r hr' p hp
    rcases List.mem_append.mp hr' with hl | hrr
    · obtain ⟨rec, _, rfl⟩ := List.mem_map.mp hl
      exact zip_keys_mem FIELDNAMES rec p hp
    · rcases List.mem_cons.mp hrr with rfl | hr''
      · exact indexRow_keys d sid ty _ _ ll ml _ p hp
      · obtain ⟨rec, _, rfl⟩ := List.mem_map.mp hr''
        exact zip_keys_mem FIELDNAMES rec p hp

/-- The append case of `update_master_index` on a well-formed index file:
when no record is keyed by the target filename, the new record (carrying
the freshly derived `created_at`) is appended at the end. -/
theorem update_master_index_nomatch
    (f : CsvFile) (d t sid ty : Str) (lf : Option Str) (ll ml : Str)
    (hh : f.header = FIELDNAMES)
    (hr : ∀ rec ∈ f.records, rec.length = 9)
    (hnone : ∀ rec ∈ f.records, ¬(rec[1]? = some (sid ++ str ".log"))) :
    update_master_index (some f) d t sid ty lf ll ml =
      Except.ok ⟨FIELDNAMES,
        f.records ++
          [[d, sid ++ str ".log", natDigits (compute_size_and_count lf).1,
            natDigits (compute_size_and_count lf).2, sid ++ str ".metadata.json",
            d ++ str "T" ++ t ++ str ":00Z", ty, ll, ml]]⟩ := by
  show writeCsv FIELDNAMES
      (upsertRows (sid ++ str ".log")
        (fun c => indexRow d sid ty (compute_size_and_count lf).1
          (compute_size_and_count lf).2 ll ml c)
        (d ++ str "T" ++ t ++ str ":00Z") (readRows f)) = _
  rw [readRows, hh]
  rw [upsertRows_all_nonmatch _ _ _ _
    (by
      intro r hr'
      obtain ⟨rec, hrec, rfl⟩ := List.mem_map.mp hr'
      rw [rowGet_zip_filename rec (hr rec hrec)]
      exact hnone rec hrec)]
  rw [writeCsv_ok_of_keys]
  · rw [List.map_append]
    rw [map_serialize_zip_nine f.records hr]
    rw [List.map_singleton, serializeRec_indexRow]
  · intro r hr' p hp
    rcases List.mem_append.mp hr' with hl | hrr
    · obtain ⟨rec, _, rfl⟩ := List.mem_map.mp hl
      exact zip_keys_mem FIELDNAMES rec p hp
    · rcases List.mem_singleton.mp hrr with rfl
      exact indexRow_keys d sid ty _ _ ll ml _ p hp

/-! ## Claims C3, C4, C10: upsert row semantics -/

/-- C3.  On a well-formed index in which the target filename keys at most
one record, `update_master_index` succeeds and afterwards exactly one
record is keyed by that filename, while every record with a different
filename is unchanged in content and position (in-place replacement of the
matching record, else an appended new record). -/
theorem claim_C3_upsert_unique_frame
    (f : CsvFile) (d t sid ty : Str) (lf : Option Str) (ll ml : Str)
    (hh : f.header = FIELDNAMES)
    (hr : ∀ rec ∈ f.records, rec.length = 9)
    (hu : f.records.countP (fun rec => rec[1]? == some (sid ++ str ".log")) ≤ 1) :
    ∃ g : CsvFile,
      update_master_index (some f) d t sid ty lf ll ml = Except.ok g ∧
      g.header = FIELDNAMES ∧
      g.records.countP (fun rec => rec[1]? == some (sid ++ str ".log")) = 1 ∧
      (∀ (i : Nat) (rec : List Str), f.records[i]? = some rec →
        ¬(rec[1]? = some (sid ++ str ".log")) → g.records[i]? = some rec) := by
  rcases exists_first_split (fun rec : List Str => rec[1]? = some (sid ++ str ".log"))
      f.records with hall | ⟨pre, m, post, hsplit, hpre, hm⟩
  · refine ⟨⟨FIELDNAMES,
      f.records ++
        [[d, sid ++ str ".log", natDigits (compute_size_and_count lf).1,
          natDigits (compute_size_and_count lf).2, sid ++ str ".metadata.json",
          d ++ str "T" ++ t ++ str ":00Z", ty, ll, ml]]⟩,
      update_master_index_nomatch f d t sid ty lf ll ml hh hr hall, rfl, ?_, ?_⟩
    · rw [List.countP_append]
      have h0 : f.records.countP (fun rec => rec[1]? == some (sid ++ str ".log")) = 0 :=
        List.countP_eq_zero.mpr (by
          intro rec hrec
          simpa using hall rec hrec)
      rw [h0]
      simp [List.countP_cons]
    · intro i rec hi hne
      have hlt : i < f.records.length := (List.getElem?_eq_some.mp hi).1
      rw [List.getElem?_append_left hlt]
      exact hi
  · refine ⟨⟨FIELDNAMES,
      pre ++
        [d, sid ++ str ".log", natDigits (compute_size_and_count lf).1,
         natDigits (compute_size_and_count lf).2, sid ++ str ".metadata.json",
         (match m[5]? with
          | some s => if s = [] then d ++ str "T" ++ t ++ str ":00Z" else s
          | none => d ++ str "T" ++ t ++ str ":00Z"), ty, ll, ml] :: post⟩,
      update_master_index_split f d t sid ty lf ll ml pre post m hh hr hsplit
        hpre hm, rfl, ?_, ?_⟩
    · have hprez : pre.countP (fun rec => rec[1]? == some (sid ++ str ".log")) = 0 :=
        List.countP_eq_zero.mpr (by
          intro rec hrec
          simpa using hpre rec hrec)
      have hposz : post.countP (fun rec => rec[1]? == some (sid ++ str ".log")) = 0 := by
        rw [hsplit, List.countP_append, List.countP_cons] at hu
        have hmb : (m[1]? == some (sid ++ str ".log")) = true := by
          simpa using hm
        rw [hmb, if_pos rfl] at hu
        omega
      rw [List.countP_append, List.countP_cons, hprez, hposz]
      simp
    · intro i rec hi hne
      by_cases hieq : i = pre.length
      · subst hieq
        rw [hsplit, List.getElem?_append_right (le_refl pre.length), Nat.sub_self,
          List.getElem?_cons_zero] at hi
        obtain rfl : m = rec := Option.some.inj hi
        exact absurd hm hne
      · rw [getElem?_middle_eq pre post _ m i hieq, ← hsplit]
        exact hi

/-- A well-formed single-row index used to instantiate the upsert claims. -/
def C3exFile : CsvFile :=
  ⟨FIELDNAMES,
   [[str "2025-08-11", str "SCN_2025_08_11_001.log", str "5", str "1",
     str "SCN_2025_08_11_001.metadata.json", str "2025-08-11T08:00:00Z",
     str "x", [], []]]⟩

/-- Closed instance of C3 at a concrete one-row index (the new filename is
absent, so the new record is appended and the old record keeps position 0). -/
theorem claim_C3_witness :
    ∃ g : CsvFile,
      update_master_index (some C3exFile) (str "2025-08-12") (str "09:00")
          (str "SCN_2025_08_12_001") (str "test") none [] [] = Except.ok g ∧
      g.header = FIELDNAMES ∧
      g.records.countP
        (fun rec => rec[1]? == some (str "SCN_2025_08_12_001" ++ str ".log")) = 1 ∧
      (∀ (i : Nat) (rec : List Str), C3exFile.records[i]? = some rec →
        ¬(rec[1]? = some (str "SCN_2025_08_12_001" ++ str ".log")) →
        g.records[i]? = some rec) :=
  claim_C3_upsert_unique_frame C3exFile (str "2025-08-12") (str "09:00")
    (str "SCN_2025_08_12_001") (str "test") none [] [] rfl (by decide) (by decide)

/-- C4.  Upserting a fully-computed row for a filename whose first matching
record carries creation timestamp `c1` stores, at that record's position, a
record whose `created_at` is `c1` when `c1` is non-empty and the freshly
derived `f"{date}T{time}:00Z"` value otherwise, with every other field taken
from the new row. -/
theorem claim_C4_created_at_preserved
    (f : CsvFile) (d t sid ty : Str) (lf : Option Str) (ll ml : Str)
    (i : Nat) (rec : List Str) (c1 : Str)
    (hh : f.header = FIELDNAMES)
    (hr : ∀ rec' ∈ f.records, rec'.length = 9)
    (hi : f.records[i]? = some rec)
    (hfirst : ∀ j rec', j < i → f.records[j]? = some rec' →
      ¬(rec'[1]? = some (sid ++ str ".log")))
    (hFm : rec[1]? = some (sid ++ str ".log"))
    (hc : rec[5]? = some c1) :
    ∃ g : CsvFile,
      update_master_index (some f) d t sid ty lf ll ml = Except.ok g ∧
      g.records[i]? = some
        [d, sid ++ str ".log", natDigits (compute_size_and_count lf).1,
         natDigits (compute_size_and_count lf).2, sid ++ str ".metadata.json",
         (if c1 = [] then d ++ str "T" ++ t ++ str ":00Z" else c1), ty, ll, ml] := by
  obtain ⟨hsplit, hlen_take⟩ := split_at_getElem? f.records i rec hi
  have hpre : ∀ rec' ∈ f.records.take i, ¬(rec'[1]? = some (sid ++ str ".log")) := by
    intro rec' hrec'
    obtain ⟨j, hj, hget⟩ := mem_take_exists_getElem? f.records i rec' hrec'
    exact hfirst j rec' hj hget
  have hupd := update_master_index_split f d t sid ty lf ll ml
    (f.records.take i) (f.records.drop (i + 1)) rec hh hr hsplit hpre hFm
  refine ⟨⟨FIELDNAMES,
    f.records.take i ++
      [d, sid ++ str ".log", natDigits (compute_size_and_count lf).1,
       natDigits (compute_size_and_count lf).2, sid ++ str ".metadata.json",
       (if c1 = [] then d ++ str "T" ++ t ++ str ":00Z" else c1), ty, ll, ml] ::
      f.records.drop (i + 1)⟩, ?_, ?_⟩
  · rw [hc] at hupd
    exact hupd
  · rw [List.getElem?_append_right (le_of_eq hlen_take), hlen_take, Nat.sub_self,
      List.getElem?_cons_zero]

/-- Closed instance of C4: the stored record keeps the original creation
timestamp `2025-08-11T08:00:00Z` while all other fields come from the new
row. -/
theorem claim_C4_witness :
    ∃ g : CsvFile,
      update_master_index (some C3exFile) (str "2025-08-12") (str "10:00")
          (str "SCN_2025_08_11_001") (str "rerun") none [] [] = Except.ok g ∧
      g.records[0]? = some
        [str "2025-08-12", str "SCN_2025_08_11_001" ++ str ".log",
         natDigits (compute_size_and_count none).1,
         natDigits (compute_size_and_count none).2,
         str "SCN_2025_08_11_001" ++ str ".metadata.json",
         (if str "2025-08-11T08:00:00Z" = ([] : Str) then
            str "2025-08-12" ++ str "T" ++ str "10:00" ++ str ":00Z"
          else str "2025-08-11T08:00:00Z"),
         str "rerun", [], []] :=
  claim_C4_created_at_preserved C3exFile (str "2025-08-12") (str "10:00")
    (str "SCN_2025_08_11_001") (str "rerun") none [] [] 0
    [str "2025-08-11", str "SCN_2025_08_11_001.log", str "5", str "1",
     str "SCN_2025_08_11_001.metadata.json", str "2025-08-11T08:00:00Z",
     str "x", [], []]
    (str "2025-08-11T08:00:00Z") rfl (by decide) (by decide)
    (by intro j rec' hj hget; omega) (by decide) (by decide)

/-- C10.  When the index already holds several records keyed by the same
filename, `update_master_index` replaces only the first one (in list
order); every later duplicate is written back unchanged, so the rewritten
index still holds multiple records for that filename. -/
theorem claim_C10_first_duplicate_only
    (f : CsvFile) (d t sid ty : Str) (lf : Option Str) (ll ml : Str)
    (pre rest : List (List Str)) (rec1 : List Str) (c1 : Str)
    (hh : f.header = FIELDNAMES)
    (hr : ∀ rec ∈ f.records, rec.length = 9)
    (hsplit : f.records = pre ++ rec1 :: rest)
    (hpre : ∀ r ∈ pre, ¬(r[1]? = some (sid ++ str ".log")))
    (h1 : rec1[1]? = some (sid ++ str ".log"))
    (hc : rec1[5]? = some c1)
    (hdup : 1 ≤ rest.countP (fun r => r[1]? == some (sid ++ str ".log"))) :
    ∃ g : CsvFile,
      update_master_index (some f) d t sid ty lf ll ml = Except.ok g ∧
      g.records = pre ++
        [d, sid ++ str ".log", natDigits (compute_size_and_count lf).1,
         natDigits (compute_size_and_count lf).2, sid ++ str ".metadata.json",
         (if c1 = [] then d ++ str "T" ++ t ++ str ":00Z" else c1), ty, ll, ml] :: rest ∧
      2 ≤ g.records.countP (fun r => r[1]? == some (sid ++ str ".log")) := by
  have hupd := update_master_index_split f d t sid ty lf ll ml pre rest rec1 hh hr hsplit
    hpre h1
  refine ⟨⟨FIELDNAMES,
    pre ++
      [d, sid ++ str ".log", natDigits (compute_size_and_count lf).1,
       natDigits (compute_size_and_count lf).2, sid ++ str ".metadata.json",
       (if c1 = [] then d ++ str "T" ++ t ++ str ":00Z" else c1), ty, ll, ml] ::
      rest⟩, ?_, rfl, ?_⟩
  · rw [hc] at hupd
    exact hupd
  · rw [List.countP_append, List.countP_cons]
    have hnew : ([d, sid ++ str ".log", natDigits (compute_size_and_count lf).1,
         natDigits (compute_size_and_count lf).2, sid ++ str ".metadata.json",
         (if c1 = [] then d ++ str "T" ++ t ++ str ":00Z" else c1), ty, ll,
         ml][1]? == some (sid ++ str ".log")) = true := by
      simp
    rw [hnew, if_pos rfl]
    omega

/-- A well-formed index holding two records for the same filename. -/
def C10exFile : CsvFile :=
  ⟨FIELDNAMES,
   [[str "2025-08-11", str "SCN_2025_08_11_001.log", str "5", str "1",
     str "SCN_2025_08_11_001.metadata.json", str "2025-08-11T08:00:00Z",
     str "x", [], []],
    [str "2025-08-11", str "SCN_2025_08_11_001.log", str "6", str "2",
     str "SCN_2025_08_11_001.metadata.json", str "2025-08-11T09:00:00Z",
     str "y", [], []]]⟩

/-- Closed instance of C10: with two duplicate records, the rewrite
replaces the first and keeps the second verbatim, leaving two records for
the filename. -/
theorem claim_C10_witness :
    ∃ g : CsvFile,
      update_master_index (some C10exFile) (str "2025-08-12") (str "10:00")
          (str "SCN_2025_08_11_001") (str "rerun") none [] [] = Except.ok g ∧
      g.records = [] ++
        [str "2025-08-12", str "SCN_2025_08_11_001" ++ str ".log",
         natDigits (compute_size_and_count none).1,
         natDigits (compute_size_and_count none).2,
         str "SCN_2025_08_11_001" ++ str ".metadata.json",
         (if str "2025-08-11T08:00:00Z" = ([] : Str) then
            str "2025-08-12" ++ str "T" ++ str "10:00" ++ str ":00Z"
          else str "2025-08-11T08:00:00Z"),
         str "rerun", [], []] ::
        [[str "2025-08-11", str "SCN_2025_08_11_001.log", str "6", str "2",
          str "SCN_2025_08_11_001.metadata.json", str "2025-08-11T09:00:00Z",
          str "y", [], []]] ∧
      2 ≤ g.records.countP
        (fun r => r[1]? == some (str "SCN_2025_08_11_001" ++ str ".log")) :=
  claim_C10_first_duplicate_only C10exFile (str "2025-08-12") (str "10:00")
    (str "SCN_2025_08_11_001") (str "rerun") none [] [] []
    [[str "2025-08-11", str "SCN_2025_08_11_001.log", str "6", str "2",
      str "SCN_2025_08_11_001.metadata.json", str "2025-08-11T09:00:00Z",
      str "y", [], []]]
    [str "2025-08-11", str "SCN_2025_08_11_001.log", str "5", str "1",
     str "SCN_2025_08_11_001.metadata.json", str "2025-08-11T08:00:00Z",
     str "x", [], []]
    (str "2025-08-11T08:00:00Z") rfl (by decide) (by decide) (by simp)
    (by decide) (by decide) (by decide)

/-! ## Claim C5: idempotence of the upsert -/

theorem upsertRows_decomp (F : Str) (mk : Str → CsvRow) (dflt : Str) :
    ∀ rows : List CsvRow, ∃ pre c post,
      upsertRows F mk dflt rows = pre ++ mk c :: post ∧
      (∀ r ∈ pre, rowGet r (str "filename") ≠ some F) ∧
      (c = dflt ∨ ∃ r : CsvRow, c = createdFrom r dflt) := by
  intro rows
  induction rows with
  | nil => exact ⟨[], dflt, [], rfl, by simp, Or.inl rfl⟩
  | cons hd tl ih =>
    by_cases hmatch : rowGet hd (str "filename") = some F
    · refine ⟨[], createdFrom hd dflt, tl, ?_, by simp, Or.inr ⟨hd, rfl⟩⟩
      rw [upsertRows, if_pos hmatch, List.nil_append]
    · obtain ⟨pre, c, post, heq, hpre, hcor⟩ := ih
      refine ⟨hd :: pre, c, post, ?_, ?_, hcor⟩
      · rw [upsertRows, if_neg hmatch, heq, List.cons_append]
      · intro r hr
        rcases List.mem_cons.mp hr with rfl | hr'
        · exact hmatch
        · exact hpre r hr'

/-- Reading back a just-written row: the dict a row becomes after one
serialize/parse round trip through the canonical header. -/
def normRow (r : CsvRow) : CsvRow := FIELDNAMES.zip (serializeRec FIELDNAMES r)

theorem rowGet_normRow_filename (r : CsvRow) :
    rowGet (normRow r) (str "filename") = some ((rowGet r (str "filename")).getD []) := rfl

theorem rowGet_normRow_created (r : CsvRow) :
    rowGet (normRow r) (str "created_at") =
      some ((rowGet r (str "created_at")).getD []) := rfl

theorem serializeRec_length (r : CsvRow) : (serializeRec FIELDNAMES r).length = 9 := by
  simp [serializeRec, FIELDNAMES]

theorem serializeRec_normRow (r : CsvRow) :
    serializeRec FIELDNAMES (normRow r) = serializeRec FIELDNAMES r :=
  serializeRec_zip_nine _ (serializeRec_length r)

theorem logname_ne_nil (sid : Str) : sid ++ str ".log" ≠ [] := by
  intro h
  rcases List.append_eq_nil.mp h with ⟨-, h2⟩
  exact absurd h2 (by decide)

theorem created_default_ne_nil (d t : Str) : d ++ str "T" ++ t ++ str ":00Z" ≠ [] := by
  intro h
  rcases List.append_eq_nil.mp h with ⟨-, h2⟩
  exact absurd h2 (by decide)

theorem createdFrom_ne_nil (r : CsvRow) (dflt : Str) (hd : dflt ≠ []) :
    createdFrom r dflt ≠ [] := by
  cases hg : rowGet r (str "created_at") with
  | none => simp only [createdFrom, hg]; exact hd
  | some s =>
    simp only [createdFrom, hg]
    by_cases hs : s = []
    · rw [if_pos hs]; exact hd
    · rw [if_neg hs]; exact hs

/-- Core of claim C5: if writing the upserted rows produced the file `g`,
then re-running the identical upsert on `g` returns exactly `g`. -/
theorem update_ok_idempotent_core
    (d t sid ty : Str) (lf : Option Str) (ll ml : Str) (g : CsvFile) (rows0 : List CsvRow)
    (h' : writeCsv FIELDNAMES
      (upsertRows (sid ++ str ".log")
        (indexRow d sid ty (compute_size_and_count lf).1
          (compute_size_and_count lf).2 ll ml)
        (d ++ str "T" ++ t ++ str ":00Z") rows0) = Except.ok g) :
    update_master_index (some g) d t sid ty lf ll ml = Except.ok g := by
  obtain ⟨pre, c, post, hdecomp, hpre, hcor⟩ :=
    upsertRows_decomp (sid ++ str ".log")
      (indexRow d sid ty (compute_size_and_count lf).1
        (compute_size_and_count lf).2 ll ml)
      (d ++ str "T" ++ t ++ str ":00Z") rows0
  have hcne : c ≠ [] := by
    rcases hcor with rfl | ⟨r, rfl⟩
    · exact created_default_ne_nil d t
    · exact createdFrom_ne_nil r _ (created_default_ne_nil d t)
  rw [hdecomp, writeCsv] at h'
  split_ifs at h' with hcond
  · have hg : CsvFile.mk FIELDNAMES
        ((pre ++ indexRow d sid ty (compute_size_and_count lf).1
            (compute_size_and_count lf).2 ll ml c :: post).map
          (serializeRec FIELDNAMES)) = g := by
      injection h'
    subst hg
    show writeCsv FIELDNAMES
        (upsertRows (sid ++ str ".log")
          (indexRow d sid ty (compute_size_and_count lf).1
            (compute_size_and_count lf).2 ll ml)
          (d ++ str "T" ++ t ++ str ":00Z")
          (readRows (CsvFile.mk FIELDNAMES
            ((pre ++ indexRow d sid ty (compute_size_and_count lf).1
                (compute_size_and_count lf).2 ll ml c :: post).map
              (serializeRec FIELDNAMES))))) = _
    have hread : readRows (CsvFile.mk FIELDNAMES
        ((pre ++ indexRow d sid ty (compute_size_and_count lf).1
            (compute_size_and_count lf).2 ll ml c :: post).map
          (serializeRec FIELDNAMES))) =
        (pre ++ indexRow d sid ty (compute_size_and_count lf).1
          (compute_size_and_count lf).2 ll ml c :: post).map normRow := by
      rw [readRows, List.map_map]
      rfl
    rw [hread, List.map_append, List.map_cons]
    have hpre' : ∀ r ∈ pre.map normRow,
        rowGet r (str "filename") ≠ some (sid ++ str ".log") := by
      intro r hr
      obtain ⟨r0, hr0, rfl⟩ := List.mem_map.mp hr
      rw [rowGet_normRow_filename]
      cases hg0 : rowGet r0 (str "filename") with
      | none =>
        intro habs
        exact logname_ne_nil sid (Option.some.inj (by simpa using habs)).symm
      | some v =>
        intro habs
        refine hpre r0 hr0 ?_
        rw [hg0]
        simpa using habs
    have hmatch' : rowGet (normRow (indexRow d sid ty (compute_size_and_count lf).1
        (compute_size_and_count lf).2 ll ml c)) (str "filename") =
        some (sid ++ str ".log") := by
      rw [rowGet_normRow_filename, rowGet_indexRow_filename]
      rfl
    rw [upsertRows_first_match _ _ _ _ _ _ hpre' hmatch']
    have hcreq : createdFrom (normRow (indexRow d sid ty (compute_size_and_count lf).1
        (compute_size_and_count lf).2 ll ml c)) (d ++ str "T" ++ t ++ str ":00Z") = c := by
      have hc0 : rowGet (normRow (indexRow d sid ty (compute_size_and_count lf).1
          (compute_size_and_count lf).2 ll ml c)) (str "created_at") = some c := by
        rw [rowGet_normRow_created, rowGet_indexRow_created]
        rfl
      simp only [createdFrom, hc0]
      rw [if_neg hcne]
    rw [hcreq]
    rw [writeCsv_ok_of_keys]
    · have hmpre : (pre.map normRow).map (serializeRec FIELDNAMES) =
          pre.map (serializeRec FIELDNAMES) := by
        rw [List.map_map]
        apply List.map_congr_left
        intro r0 _
        exact serializeRec_normRow r0
      have hmpost : (post.map normRow).map (serializeRec FIELDNAMES) =
          post.map (serializeRec FIELDNAMES) := by
        rw [List.map_map]
        apply List.map_congr_left
        intro r0 _
        exact serializeRec_normRow r0
      conv_lhs => rw [List.map_append, List.map_cons]
      rw [hmpre, hmpost]
      conv_rhs => rw [List.map_append, List.map_cons]
    · intro r hr p hp
      rcases List.mem_append.mp hr with hl | hrr
      · obtain ⟨r0, _, rfl⟩ := List.mem_map.mp hl
        exact zip_keys_mem FIELDNAMES _ p hp
      · rcases List.mem_cons.mp hrr with rfl | hr''
        · exact indexRow_keys d sid ty _ _ ll ml _ p hp
        · obtain ⟨r0, _, rfl⟩ := List.mem_map.mp hr''
          exact zip_keys_mem FIELDNAMES _ p hp

/-- C5.  `update_master_index` is idempotent: whenever a call writes the
index state `g`, calling it again with the identical arguments on `g`
rewrites exactly `g` (the preserved creation timestamp stabilizes after the
first write). -/
theorem claim_C5_idempotent
    (idx : Option CsvFile) (d t sid ty : Str) (lf : Option Str) (ll ml : Str) (g : CsvFile)
    (h : update_master_index idx d t sid ty lf ll ml = Except.ok g) :
    update_master_index (some g) d t sid ty lf ll ml = Except.ok g := by
  rcases idx with _ | f
  · exact update_ok_idempotent_core d t sid ty lf ll ml g [] h
  · exact update_ok_idempotent_core d t sid ty lf ll ml g (readRows f) h

/-- The index state written by the first `update_master_index` call of the
C5 witness. -/
def C5exG : CsvFile :=
  ⟨FIELDNAMES,
   [[str "2025-08-12", str "SCN_2025_08_12_001.log", str "0", str "0",
     str "SCN_2025_08_12_001.metadata.json", str "2025-08-12T09:00:00Z",
     str "test", [], []]]⟩

/-- Closed instance of C5: re-running the identical upsert on its own
output leaves the index unchanged. -/
theorem claim_C5_witness :
    update_master_index (some C5exG) (str "2025-08-12") (str "09:00")
        (str "SCN_2025_08_12_001") (str "test") none [] [] = Except.ok C5exG :=
  claim_C5_idempotent none (str "2025-08-12") (str "09:00") (str "SCN_2025_08_12_001")
    (str "test") none [] [] C5exG (by rfl)

/-! ## Claim C6: schema-mismatch handling -/

/-- An index file lacking most of the required columns. -/
def C6exFile : CsvFile :=
  ⟨[str "date", str "filename"], [[str "2025-08-12", str "SCN_2025_08_12_001.log"]]⟩

/-- Counterexample to C6 as stated: on an index file whose header lacks the
required column `metadata_file` (among others), `update_master_index` does
not abort — it succeeds, silently rewriting the file under the fixed
canonical schema with the missing fields filled by empty strings. -/
theorem claim_C6_counterexample :
    str "metadata_file" ∈ REQUIRED_COLS ∧
    str "metadata_file" ∉ C6exFile.header ∧
    update_master_index (some C6exFile) (str "2025-08-12") (str "10:00")
        (str "SCN_2025_08_12_002") (str "t") none [] [] =
      Except.ok ⟨FIELDNAMES,
        [[str "2025-08-12", str "SCN_2025_08_12_001.log", [], [], [], [], [], [], []],
         [str "2025-08-12", str "SCN_2025_08_12_002.log", str "0", str "0",
          str "SCN_2025_08_12_002.metadata.json", str "2025-08-12T10:00:00Z",
          str "t", [], []]]⟩ :=
  ⟨by decide, by decide, by rfl⟩

theorem backfill_main_some (repo : Str) (f : CsvFile) (hrepo : repo ≠ []) :
    backfill_index_links_main repo (some f) =
      if REQUIRED_COLS.filter (fun c => !(f.header.contains c)) ≠ [] then (1, some f)
      else
        match writeCsv f.header ((readRows f).map (backfillRow repo)) with
        | Except.ok g => (0, some g)
        | Except.error _ => (1, some f) := by
  simp only [backfill_index_links_main]
  rw [if_neg hrepo]

/-- C6 (amended).  `update_master_index` performs no schema check: on an
index file whose header lacks a required column (but introduces no unknown
columns), it succeeds and rewrites the file under the fixed canonical
schema rather than aborting.  Only `backfill_index_links.main` checks the
required columns, aborting with exit code 1 and leaving the file untouched. -/
theorem claim_C6_amended_only_backfill_checks
    (repo : Str) (f : CsvFile) (col : Str)
    (d t sid ty : Str) (lf : Option Str) (ll ml : Str)
    (hrepo : repo ≠ [])
    (hcol : col ∈ REQUIRED_COLS)
    (hmiss : col ∉ f.header)
    (hsub : ∀ c ∈ f.header, c ∈ FIELDNAMES) :
    backfill_index_links_main repo (some f) = (1, some f) ∧
    ∃ g : CsvFile, update_master_index (some f) d t sid ty lf ll ml = Except.ok g ∧
      g.header = FIELDNAMES := by
  constructor
  · have hcf : f.header.contains col = false := by
      cases hcase : f.header.contains col
      · rfl
      · rw [List.contains, List.elem_iff] at hcase
        exact absurd hcase hmiss
    have hmmem : col ∈ REQUIRED_COLS.filter (fun c => !(f.header.contains c)) := by
      rw [List.mem_filter]
      exact ⟨hcol, by rw [hcf]; rfl⟩
    have hne : REQUIRED_COLS.filter (fun c => !(f.header.contains c)) ≠ [] :=
      List.ne_nil_of_mem hmmem
    rw [backfill_main_some repo f hrepo, if_pos hne]
  · have hkeys : ∀ r ∈ readRows f, ∀ p ∈ r, p.1 ∈ FIELDNAMES := by
      intro r hr p hp
      rw [readRows] at hr
      obtain ⟨rec, hrec, rfl⟩ := List.mem_map.mp hr
      exact hsub p.1 (zip_keys_mem f.header rec p hp)
    have hkeys' := upsertRows_keys (sid ++ str ".log")
      (indexRow d sid ty (compute_size_and_count lf).1
        (compute_size_and_count lf).2 ll ml)
      (d ++ str "T" ++ t ++ str ":00Z") FIELDNAMES
      (fun c => indexRow_keys d sid ty _ _ ll ml c) (readRows f) hkeys
    refine ⟨⟨FIELDNAMES,
      (upsertRows (sid ++ str ".log")
        (indexRow d sid ty (compute_size_and_count lf).1
          (compute_size_and_count lf).2 ll ml)
        (d ++ str "T" ++ t ++ str ":00Z") (readRows f)).map
        (serializeRec FIELDNAMES)⟩, ?_, rfl⟩
    exact writeCsv_ok_of_keys FIELDNAMES _ hkeys'

/-- Closed instance of the amended C6 at the concrete schema-deficient
index file. -/
theorem claim_C6_amended_witness :
    backfill_index_links_main (str "o/r") (some C6exFile) = (1, some C6exFile) ∧
    ∃ g : CsvFile,
      update_master_index (some C6exFile) (str "2025-08-12") (str "10:00")
          (str "SCN_2025_08_12_002") (str "t") none [] [] = Except.ok g ∧
      g.header = FIELDNAMES :=
  claim_C6_amended_only_backfill_checks (str "o/r") C6exFile (str "metadata_file")
    (str "2025-08-12") (str "10:00") (str "SCN_2025_08_12_002") (str "t") none [] []
    (by decide) (by decide) (by decide) (by decide)
